import Mathlib

/-!
Verification of the statesaver versioned datastore and its HTTP adapter.

The model is a shallow embedding of the Go sources:
* the per-blob directory of the `Datastore` (version files, the `current`
  symlink and the `lock` file) becomes the `Blob` state type;
* each datastore method (`Write`, `Read`, `Delete`, `Lock`, `Unlock`,
  `LockRead`, `LockCheck`, `History`, `Prune`, `set_current`) becomes an
  explicit state-passing function over `Blob`;
* `encoding/json.Unmarshal` (used by `ParseJSON`) and `crypto/md5` are
  external library code; they are modelled as function parameters `pj`
  (returning `none` on parse failure, mirroring `ParseJSON` returning a
  nil map) and `hashFn`;
* Go's dynamic `interface{}` values read out of a parsed JSON map become
  `GoVal`; indexing a nil or missing key yields `none` (the nil
  interface), and the unchecked type assertion `.(string)` becomes
  `goString`, whose `none` result corresponds to a runtime panic;
* the HTTP adapter `APIHandler.ServeHTTP` becomes `serveAPI`, which
  records the datastore call it dispatched and the resulting status code.

Blob names are taken to be valid (the blobs under scrutiny exist on
disk, hence `Datastore.File` succeeds on them); the path mapper is
therefore not modelled and `ErrInvalidPath` branches for malformed names
are out of scope for the claims below.
-/

/-- The closed error set of `errors.go`, plus `ioErr` standing for any
other raw I/O error value that the Go code returns unchanged
(e.g. the error of `Remove` on a missing file). -/
inductive DsErr where
  | notFound
  | invalidPath
  | invalidHash
  | locked
  | unlocked
  | notChanged
  | ioErr
deriving Repr, DecidableEq

/-- A dynamic value held in a parsed JSON map (`map[string]interface{}`):
either a JSON string or some non-string JSON value. -/
inductive GoVal where
  | vstr (s : String)
  | vother
deriving Repr, DecidableEq

/-- A parsed JSON object, as the association list of its fields. -/
abbrev Jobj := List (String × GoVal)

/-- Indexing `m[k]` on a possibly-nil Go map: a nil map or a missing key
yields the nil interface (`none`). -/
def jIndex (m : Option Jobj) (k : String) : Option GoVal :=
  match m with
  | none => none
  | some o => (o.find? (fun p => p.1 == k)).map Prod.snd

/-- The unchecked Go type assertion `v.(string)`: `none` means the
assertion fails at runtime (a panic). -/
def goString : Option GoVal → Option String
  | some (GoVal.vstr s) => some s
  | _ => none

/-- A regular file inside a blob directory: its base name, its byte
content and its modification time. -/
structure VFile where
  name : String
  data : String
  mtime : Nat
deriving Repr, DecidableEq

/-- The state of one blob directory `R/<N>/`: its regular files
(version files and, when present, the file named `lock`) and the target
of the `current` symlink when that symlink exists. -/
structure Blob where
  files : List VFile
  current : Option String
deriving Repr, DecidableEq

/-- Directory lookup of a regular file by name (`Stat`/`Open`). -/
def findFile (fs : List VFile) (n : String) : Option VFile :=
  fs.find? (fun f => f.name == n)

/-- `Remove` of a regular file; file names in a directory are unique. -/
def removeFile (fs : List VFile) (n : String) : List VFile :=
  fs.filter (fun f => f.name != n)

/-- `WriteFile`/`WriteReader`: create the file, truncating any existing
file of the same name. -/
def putFile (fs : List VFile) (f : VFile) : List VFile :=
  f :: removeFile fs f.name

/-- Directory well-formedness: file names are unique. -/
def WF (st : Blob) : Prop := (st.files.map VFile.name).Nodup

instance : DecidablePred WF := fun st =>
  inferInstanceAs (Decidable ((st.files.map VFile.name).Nodup))

/-- An `io.Reader` for a request body: the bytes it delivers before
returning, and whether it ends with an error instead of EOF
(a client disconnecting mid-POST). -/
structure Reader where
  delivered : String
  failed : Bool
deriving Repr, DecidableEq

/-- `Datastore.LockRead`: return the contents of the `lock` file, or
`ErrUnlocked` when it cannot be read. -/
def LockRead (st : Blob) : Except DsErr String :=
  match findFile st.files "lock" with
  | some f => Except.ok f.data
  | none => Except.error DsErr.unlocked

/-- `Datastore.LockCheck`: if the lock file is readable, parse it and
return `ErrLocked` unless `lockdata["ID"]` equals `lockid`
(`interface{} != string` is false exactly when the dynamic value is that
string); an unreadable lock is treated as unlocked. -/
def LockCheck (pj : String → Option Jobj) (st : Blob) (lockid : String) :
    Option DsErr :=
  match LockRead st with
  | Except.ok lockstr =>
      if jIndex (pj lockstr) "ID" = some (GoVal.vstr lockid) then none
      else some DsErr.locked
  | Except.error _ => none

/-- `Datastore.Lock`: fail with `ErrLocked` when the lock file already
exists, otherwise create it with the exact payload bytes
(`t` is the creation time of the file). -/
def Lock (st : Blob) (lockinfo : String) (t : Nat) : Option DsErr × Blob :=
  match findFile st.files "lock" with
  | some _ => (some DsErr.locked, st)
  | none => (none, { st with files := putFile st.files ⟨"lock", lockinfo, t⟩ })

/-- Outcome of `Datastore.Unlock`, which can panic on an unchecked type
assertion. -/
inductive URes where
  | ok (st : Blob)
  | err (e : DsErr)
  | panicked
deriving Repr, DecidableEq

/-- `Remove` of the lock file inside `Unlock`: removing a missing file
surfaces the raw filesystem error. -/
def removeLock (st : Blob) : Option DsErr × Blob :=
  match findFile st.files "lock" with
  | some _ => (none, { st with files := removeFile st.files "lock" })
  | none => (some DsErr.ioErr, st)

/-- `Datastore.Unlock`: when the payload parses (`match_data != nil`),
read the stored lock (`ErrUnlocked` if unreadable), then compare
`match_data["ID"].(string)` with `prev_data["ID"].(string)` — both type
assertions are unchecked, so a missing or non-string `ID` on either side
panics; a mismatch returns `ErrLocked`; otherwise (or when the payload
does not parse) the lock file is removed. -/
def Unlock (pj : String → Option Jobj) (st : Blob) (lockinfo : String) : URes :=
  match pj lockinfo with
  | none =>
      match removeLock st with
      | (none, st2) => URes.ok st2
      | (some e, _) => URes.err e
  | some md =>
      match findFile st.files "lock" with
      | none => URes.err DsErr.unlocked
      | some lf =>
          match goString (jIndex (some md) "ID") with
          | none => URes.panicked
          | some a =>
              match goString (jIndex (pj lf.data) "ID") with
              | none => URes.panicked
              | some b =>
                  if a ≠ b then URes.err DsErr.locked
                  else
                    match removeLock st with
                    | (none, st2) => URes.ok st2
                    | (some e, _) => URes.err e

/-- `Datastore.set_current`: `Stat` on the `current` path follows the
symlink, so it succeeds exactly when the link exists and its target
file exists; in that case the old link is removed and the new one
created. Without a link the new one is created directly. A dangling
link is not removed (`Stat` failed), so `os.Symlink` then fails on the
existing path and the error is returned with the state unchanged. -/
def set_current (st : Blob) (target : String) : Option DsErr × Blob :=
  match st.current with
  | some tgt =>
      if (findFile st.files tgt).isSome then
        (none, { st with current := some target })
      else
        (some DsErr.ioErr, st)
  | none => (none, { st with current := some target })

/-- `Datastore.Write` (`vid` is the token from `Timestr()`, `t` the
file's mtime, `hashFn` the MD5 digest function): check the lock when
`lockid` is non-empty; stream the body to the new version file — a
read error from the body is only logged, so the partial content is
kept; when `hash` is non-empty and the digest of the received bytes
differs, remove the new file and return `ErrInvalidHash`; otherwise
swap `current` to the new file. -/
def Write (pj : String → Option Jobj) (hashFn : String → List Nat)
    (st : Blob) (vid : String) (t : Nat) (input : Reader)
    (hash : List Nat) (lockid : String) : Option DsErr × Blob :=
  if lockid ≠ "" ∧ (LockCheck pj st lockid).isSome then
    (some DsErr.locked, st)
  else
    let st1 : Blob := { st with files := putFile st.files ⟨vid, input.delivered, t⟩ }
    if hash ≠ [] ∧ hashFn input.delivered ≠ hash then
      (some DsErr.invalidHash, { st1 with files := removeFile st1.files vid })
    else
      set_current st1 vid

/-- `Datastore.Read`: `Open` on `current` follows the symlink and fails
with `ErrNotFound` when the link or its target is missing; otherwise
the target file's bytes are copied out. -/
def ReadDs (st : Blob) : Except DsErr String :=
  match st.current with
  | none => Except.error DsErr.notFound
  | some tgt =>
      match findFile st.files tgt with
      | none => Except.error DsErr.notFound
      | some f => Except.ok f.data

/-- `Datastore.Delete`: remove the `current` symlink only; `Remove`
on a missing link returns the raw filesystem error. -/
def Delete (st : Blob) : Option DsErr × Blob :=
  match st.current with
  | some _ => (none, { st with current := none })
  | none => (some DsErr.ioErr, st)

/-- The read model of `History`/`Walk` (`FileEntry`). -/
structure FileEntry where
  name : String
  locked : Bool
  timestamp : Nat
  size : Nat
deriving Repr, DecidableEq

/-- Ordering used by `afero.ReadDir`: directory entries sorted by name. -/
def fileLE (a b : VFile) : Prop := a.name ≤ b.name

instance : DecidableRel fileLE := fun a b =>
  inferInstanceAs (Decidable (a.name ≤ b.name))

/-- Ordering produced by `sort.Slice(res, …Timestamp.After…)`:
timestamps descending. -/
def entGE (a b : FileEntry) : Prop := b.timestamp ≤ a.timestamp

instance : DecidableRel entGE := fun a b =>
  inferInstanceAs (Decidable (b.timestamp ≤ a.timestamp))

instance : IsTotal FileEntry entGE :=
  ⟨fun a b => (Nat.le_total b.timestamp a.timestamp).imp id id⟩

instance : IsTrans FileEntry entGE :=
  ⟨fun _ _ _ h1 h2 => Nat.le_trans h2 h1⟩

/-- The `FileEntry` that `History` builds for a regular file `f` when
the `current` symlink targets `linkto`: `Locked` is overloaded to mean
"is the live version". -/
def entryOf (linkto : String) (f : VFile) : FileEntry :=
  { name := f.name, locked := linkto == f.name,
    timestamp := f.mtime, size := f.data.length }

/-- `Datastore.History`: read the target of `current` (a missing link
yields the empty list, not an error), list the directory's regular
files (sorted by name, as `ReadDir` does) excluding `lock`, build one
entry per file with `Locked = (linkto == name)`, and sort by timestamp
descending. -/
def History (st : Blob) : List FileEntry :=
  match st.current with
  | none => []
  | some linkto =>
      let res := ((List.insertionSort fileLE st.files).filter
          (fun f => f.name != "lock")).map (entryOf linkto)
      List.insertionSort entGE res

/-- The removal loop of `Datastore.Prune` over the entries past `keep`:
an entry with `Locked` set (the live version) is skipped; in a dry run
removal is skipped; otherwise the entry's version file is removed. -/
def pruneLoop (st : Blob) (l : List FileEntry) (dry : Bool) : Blob :=
  match l with
  | [] => st
  | e :: rest =>
      if e.locked then pruneLoop st rest dry
      else if dry then pruneLoop st rest dry
      else pruneLoop { st with files := removeFile st.files e.name } rest dry

/-- `Datastore.Prune`: compute the history; if it has at most `keep`
entries do nothing, else run the removal loop on the entries past
`keep`. (`keep` is a non-negative count here; I/O failures of `Remove`
on existing files are not modelled.) -/
def Prune (st : Blob) (keep : Nat) (dry : Bool) : Blob :=
  if (History st).length ≤ keep then st
  else pruneLoop st ((History st).drop keep) dry

/-- An `/api/<name>` request as seen by `APIHandler.ServeHTTP`:
the method string, the `ID` and `history` query parameters (`""` when
absent), the result of base64-decoding the `Content-MD5` header
(`[]` when the header is absent or not valid base64, as `APIPost`
falls back to an empty slice), and the request body. -/
structure Request where
  method : String
  qID : String
  qhistory : String
  hashb : List Nat
  body : Reader
deriving Repr, DecidableEq

/-- Outcome of `APIHandler.ServeHTTP`: the HTTP status, the buffered
response body, the datastore state afterwards and the name of the
datastore method that was dispatched (`none` when the method switch
matched no case), or a panic propagated from `Unlock`. -/
inductive HttpOut where
  | resp (status : Nat) (body : String) (st : Blob) (called : Option String)
  | panicked
deriving Repr, DecidableEq

/-- The status of a non-panicking response. -/
def HttpOut.statusQ : HttpOut → Option Nat
  | resp s _ _ _ => some s
  | panicked => none

/-- The error → status switch at the end of `ServeHTTP`: `nil` → 200,
`ErrLocked`/`ErrUnlocked` → 409, `ErrInvalidPath`/`ErrInvalidHash` →
400, `ErrNotFound` → 404, anything else → 500. -/
def statusOf : Option DsErr → Nat
  | none => 200
  | some DsErr.locked => 409
  | some DsErr.unlocked => 409
  | some DsErr.invalidPath => 400
  | some DsErr.invalidHash => 400
  | some DsErr.notFound => 404
  | some _ => 500

/-- `APIHandler.ServeHTTP`: dispatch on the method (GET honours the
`history` query and reads a version file directly, whose open error is
a raw I/O error); a method matching no case leaves `err` nil and the
buffer empty, so the response is an empty 200. `vid`/`t` are the
timestamp token and time used by a POST. -/
def serveAPI (pj : String → Option Jobj) (hashFn : String → List Nat)
    (st : Blob) (r : Request) (vid : String) (t : Nat) : HttpOut :=
  match r.method with
  | "GET" =>
      if r.qhistory = "" then
        match ReadDs st with
        | Except.ok c => HttpOut.resp 200 c st (some "Read")
        | Except.error e => HttpOut.resp (statusOf (some e)) "" st (some "Read")
      else
        match findFile st.files r.qhistory with
        | some f => HttpOut.resp 200 f.data st (some "ReadHistory")
        | none => HttpOut.resp 500 "" st (some "ReadHistory")
  | "DELETE" =>
      match Delete st with
      | (e, st2) => HttpOut.resp (statusOf e) "" st2 (some "Delete")
  | "POST" =>
      match Write pj hashFn st vid t r.body r.hashb r.qID with
      | (e, st2) => HttpOut.resp (statusOf e) "" st2 (some "Write")
  | "LOCK" =>
      match Lock st r.body.delivered t with
      | (e, st2) => HttpOut.resp (statusOf e) "" st2 (some "Lock")
  | "UNLOCK" =>
      match Unlock pj st r.body.delivered with
      | URes.ok st2 => HttpOut.resp 200 "" st2 (some "Unlock")
      | URes.err e => HttpOut.resp (statusOf (some e)) "" st (some "Unlock")
      | URes.panicked => HttpOut.panicked
  | _ => HttpOut.resp 200 "" st none

/-- Decidable form of the `set_current` precondition: the `current`
link, when present, targets an existing file (spec invariant 2). -/
def currentOk (st : Blob) : Bool :=
  match st.current with
  | none => true
  | some tgt => (findFile st.files tgt).isSome

/-- Concrete stand-in for `json.Unmarshal` on the lock payloads used by
the witnesses: a few marker strings parse to small objects, everything
else fails to parse. -/
def pj0 : String → Option Jobj := fun s =>
  if s = "La" then some [("ID", GoVal.vstr "a")]
  else if s = "Lb" then some [("ID", GoVal.vstr "b")]
  else if s = "Lx" then some [("ID", GoVal.vstr "X")]
  else if s = "Lnoid" then some [("who", GoVal.vstr "ops")]
  else if s = "Lnum" then some [("ID", GoVal.vother)]
  else none

/-- Concrete stand-in digest function for the witnesses (the real MD5
is external library code; only equality of digests matters). -/
def h0 : String → List Nat := fun s => [s.length % 256, 77]

/-- A blob with one version `v1` exposed by `current`. -/
def blobV : Blob := ⟨[⟨"v1", "data1", 1⟩], some "v1"⟩

/-- `blobV` additionally locked with the payload parsing to
`ID = "a"`. -/
def blobLockedA : Blob :=
  ⟨[⟨"lock", "La", 0⟩, ⟨"v1", "data1", 1⟩], some "v1"⟩

/-- `blobV` additionally locked with the payload parsing to
`ID = "X"`. -/
def blobLockedX : Blob :=
  ⟨[⟨"lock", "Lx", 0⟩, ⟨"v1", "data1", 1⟩], some "v1"⟩

/-- `blobV` additionally locked with a payload parsing to an object
that has no `ID` field. -/
def blobLockedNoid : Blob :=
  ⟨[⟨"lock", "Lnoid", 0⟩, ⟨"v1", "data1", 1⟩], some "v1"⟩

/-- A blob with three versions, `current` targeting the newest. -/
def blobMulti : Blob :=
  ⟨[⟨"v1", "d1", 1⟩, ⟨"v2", "d2", 2⟩, ⟨"v3", "d3", 3⟩], some "v3"⟩

theorem bne_comm_str (a b : String) : (a != b) = (b != a) := by
  by_cases h : a = b
  · subst h; rfl
  · rw [bne_iff_ne.mpr h, bne_iff_ne.mpr (Ne.symm h)]

/-- `find?` is unaffected by filtering with a predicate that holds on
every element the search predicate accepts. -/
theorem find?_filter_of_imp {α : Type} (l : List α) (p q : α → Bool)
    (h : ∀ x ∈ l, p x = true → q x = true) :
    (l.filter q).find? p = l.find? p := by
  induction l with
  | nil => rfl
  | cons x rest ih =>
      cases hp : p x with
      | true =>
          have hq : q x = true := h x (List.mem_cons_self x rest) hp
          rw [List.filter_cons_of_pos hq, List.find?_cons_of_pos _ hp,
            List.find?_cons_of_pos _ hp]
      | false =>
          have ih2 := ih (fun y hy => h y (List.mem_cons_of_mem x hy))
          by_cases hq : q x = true
          · rw [List.filter_cons_of_pos hq, List.find?_cons_of_neg _ (by simp [hp]),
              List.find?_cons_of_neg _ (by simp [hp])]
            exact ih2
          · rw [List.filter_cons_of_neg (by simpa using hq),
              List.find?_cons_of_neg _ (by simp [hp])]
            exact ih2

theorem findFile_putFile_self (fs : List VFile) (g : VFile) :
    findFile (putFile fs g) g.name = some g := by
  simp [findFile, putFile, List.find?_cons_of_pos]

theorem findFile_putFile_ne (fs : List VFile) (g : VFile) (n : String)
    (h : n ≠ g.name) :
    findFile (putFile fs g) n = findFile fs n := by
  have hgn : (g.name == n) = false := by
    simp [beq_iff_eq]
    exact fun hh => h hh.symm
  rw [findFile, putFile, List.find?_cons_of_neg _ (by simp [hgn]), removeFile]
  exact find?_filter_of_imp fs _ _ (by
    intro x _ hx
    simp only [beq_iff_eq] at hx
    simp [bne_iff_ne, hx, h])

theorem removeFile_eq_self (fs : List VFile) (n : String)
    (h : ∀ f ∈ fs, f.name ≠ n) : removeFile fs n = fs := by
  rw [removeFile]
  exact List.filter_eq_self.mpr (by intro f hf; simpa [bne_iff_ne] using h f hf)

/-- Closed form of the non-dry prune loop: it filters out exactly the
files named by a non-live entry of the processed list. -/
theorem pruneLoop_false (st : Blob) (l : List FileEntry) :
    pruneLoop st l false =
      ⟨st.files.filter (fun f => l.all (fun e => e.locked || e.name != f.name)),
        st.current⟩ := by
  induction l generalizing st with
  | nil => simp [pruneLoop]
  | cons e rest ih =>
      by_cases hl : e.locked = true
      · rw [pruneLoop, if_pos hl, ih]
        have : ∀ f ∈ st.files,
            (rest.all (fun e2 => e2.locked || e2.name != f.name)) =
            ((e :: rest).all (fun e2 => e2.locked || e2.name != f.name)) := by
          intro f _
          simp [List.all_cons, hl]
        simp only [List.filter_congr this]
      · rw [pruneLoop, if_neg hl, if_neg (by simp), ih]
        simp only []
        congr 1
        rw [removeFile, List.filter_filter]
        refine List.filter_congr ?_
        intro f _
        simp only [List.all_cons, Bool.eq_false_iff.mpr hl, Bool.false_or]
        rw [Bool.and_comm, bne_comm_str]

theorem length_History (st : Blob) (linkto : String) (h : st.current = some linkto) :
    (History st).length =
      (st.files.filter (fun f => f.name != "lock")).length := by
  simp only [History, h]
  rw [(List.perm_insertionSort entGE _).length_eq, List.length_map,
    (List.Perm.filter _ (List.perm_insertionSort fileLE st.files)).length_eq]

theorem mem_History {st : Blob} {linkto : String} (h : st.current = some linkto)
    {f : VFile} (hf : f ∈ st.files) (hfl : f.name ≠ "lock") :
    entryOf linkto f ∈ History st := by
  simp only [History, h]
  rw [(List.perm_insertionSort entGE _).mem_iff]
  refine List.mem_map_of_mem _ ?_
  rw [List.mem_filter]
  refine ⟨?_, by simpa [bne_iff_ne] using hfl⟩
  rw [(List.perm_insertionSort fileLE st.files).mem_iff]
  exact hf

theorem History_elim {st : Blob} {linkto : String} (h : st.current = some linkto)
    {e : FileEntry} (he : e ∈ History st) :
    ∃ f ∈ st.files, f.name ≠ "lock" ∧ e = entryOf linkto f := by
  simp only [History, h] at he
  rw [(List.perm_insertionSort entGE _).mem_iff] at he
  obtain ⟨f, hf, rfl⟩ := List.mem_map.mp he
  rw [List.mem_filter] at hf
  obtain ⟨hf1, hf2⟩ := hf
  rw [(List.perm_insertionSort fileLE st.files).mem_iff] at hf1
  exact ⟨f, hf1, by simpa [bne_iff_ne] using hf2, rfl⟩

theorem History_locked_iff {st : Blob} {linkto : String} {e : FileEntry}
    (h : st.current = some linkto) (he : e ∈ History st) :
    (e.locked = true ↔ e.name = linkto) ∧ e.name ≠ "lock" := by
  obtain ⟨f, _, hfl, rfl⟩ := History_elim h he
  refine ⟨?_, hfl⟩
  show (linkto == f.name) = true ↔ f.name = linkto
  rw [beq_iff_eq]
  exact eq_comm

theorem jIndex_ID (v : GoVal) : jIndex (some [("ID", v)]) "ID" = some v := by
  show Option.map Prod.snd (List.find? (fun p => p.1 == "ID") [("ID", v)]) = some v
  rw [List.find?_cons_of_pos _ (by simp)]
  rfl

theorem currentOk_putFile (st : Blob) (g : VFile) (h : currentOk st = true) :
    currentOk ⟨putFile st.files g, st.current⟩ = true := by
  unfold currentOk at *
  cases hc : st.current with
  | none => rfl
  | some tgt =>
      rw [hc] at h
      simp only []
      by_cases he : tgt = g.name
      · subst he
        rw [findFile_putFile_self]
        rfl
      · rw [findFile_putFile_ne _ _ _ he]
        exact h

theorem set_current_ok (st : Blob) (target : String) (h : currentOk st = true) :
    set_current st target = (none, { st with current := some target }) := by
  unfold set_current
  cases hc : st.current with
  | none => simp [hc]
  | some tgt =>
      have h2 : (findFile st.files tgt).isSome = true := by
        unfold currentOk at h
        rw [hc] at h
        exact h
      simp [hc, h2]

theorem set_current_fst_none (st : Blob) (target : String)
    (h : (set_current st target).1 = none) :
    (set_current st target).2 = { st with current := some target } := by
  unfold set_current at h ⊢
  cases hc : st.current with
  | none => simp [hc]
  | some tgt =>
      rw [hc] at h
      by_cases hf : (findFile st.files tgt).isSome = true
      · simp [hc, hf]
      · exfalso
        simp [hf] at h

/-- Shape of a `Write` that passes the lock gate and the hash check. -/
theorem Write_pass (pj : String → Option Jobj) (hashFn : String → List Nat)
    (st : Blob) (vid : String) (t : Nat) (input : Reader)
    (hash : List Nat) (lockid : String)
    (hgate : ¬(lockid ≠ "" ∧ (LockCheck pj st lockid).isSome = true))
    (hhash : ¬(hash ≠ [] ∧ hashFn input.delivered ≠ hash))
    (hcur : currentOk st = true) :
    Write pj hashFn st vid t input hash lockid =
      (none, ⟨putFile st.files ⟨vid, input.delivered, t⟩, some vid⟩) := by
  unfold Write
  rw [if_neg hgate, if_neg hhash]
  have h2 := currentOk_putFile st ⟨vid, input.delivered, t⟩ hcur
  rw [set_current_ok _ _ h2]

theorem LockCheck_eq (pj : String → Option Jobj) (st : Blob) (ls : String)
    (tl : Nat) (lockid : String)
    (hlock : findFile st.files "lock" = some ⟨"lock", ls, tl⟩) :
    LockCheck pj st lockid =
      if jIndex (pj ls) "ID" = some (GoVal.vstr lockid) then none
      else some DsErr.locked := by
  unfold LockCheck LockRead
  rw [hlock]

/-- C1: with the blob's lock file parsing to the JSON object
`ID = ida`, a Write carrying a different non-empty lockId `idb`
returns Locked and leaves the blob unchanged, while a Write
carrying `ida` succeeds: it creates the new version file and swaps
`current` to it. -/
theorem write_respects_lock_id
    (pj : String → Option Jobj) (hashFn : String → List Nat) (st : Blob)
    (ida idb ls : String) (tl : Nat) (input : Reader) (vid : String) (t : Nat)
    (hlock : findFile st.files "lock" = some ⟨"lock", ls, tl⟩)
    (hpj : pj ls = some [("ID", GoVal.vstr ida)])
    (hidb : idb ≠ "") (hne : idb ≠ ida)
    (hcur : currentOk st = true) :
    Write pj hashFn st vid t input [] idb = (some DsErr.locked, st) ∧
    Write pj hashFn st vid t input [] ida =
      (none, ⟨putFile st.files ⟨vid, input.delivered, t⟩, some vid⟩) := by
  have hca : LockCheck pj st ida = none := by
    rw [LockCheck_eq pj st ls tl ida hlock, hpj, jIndex_ID, if_pos rfl]
  have hcb : LockCheck pj st idb = some DsErr.locked := by
    rw [LockCheck_eq pj st ls tl idb hlock, hpj, jIndex_ID, if_neg]
    intro hcon
    injection hcon with h1
    injection h1 with h2
    exact hne h2.symm
  constructor
  · unfold Write
    rw [if_pos ⟨hidb, by rw [hcb]; rfl⟩]
  · refine Write_pass pj hashFn st vid t input [] ida ?_ ?_ hcur
    · rintro ⟨-, hsome⟩
      rw [hca] at hsome
      simp at hsome
    · rintro ⟨hne2, -⟩
      exact hne2 rfl

/-- C2 counterexample: with the lock held by ID `X`, a Write carrying
an empty lockId does NOT fail with Locked — the lock check is skipped
and the write succeeds, storing the new version and swapping
`current`. -/
theorem write_empty_lockid_succeeds_cex :
    Write pj0 h0 blobLockedX "v2" 5 ⟨"b2", false⟩ [] "" =
      (none, ⟨[⟨"v2", "b2", 5⟩, ⟨"lock", "Lx", 0⟩, ⟨"v1", "data1", 1⟩],
        some "v2"⟩) ∧
    (Write pj0 h0 blobLockedX "v2" 5 ⟨"b2", false⟩ [] "").1 ≠
      some DsErr.locked := by
  exact ⟨by decide, by decide⟩

/-- C2 amended: with the lock held (lock file parsing to `ID = x`),
a Write carrying lockId `x` succeeds and a Write carrying any other
non-empty lockId fails with Locked, but a Write carrying an empty
lockId skips the lock check entirely and also succeeds. -/
theorem write_lock_id_semantics
    (pj : String → Option Jobj) (hashFn : String → List Nat) (st : Blob)
    (x ls : String) (tl : Nat) (input : Reader) (vid : String) (t : Nat)
    (hlock : findFile st.files "lock" = some ⟨"lock", ls, tl⟩)
    (hpj : pj ls = some [("ID", GoVal.vstr x)])
    (hcur : currentOk st = true) :
    (Write pj hashFn st vid t input [] "").1 = none ∧
    (Write pj hashFn st vid t input [] x).1 = none ∧
    ∀ y, y ≠ "" → y ≠ x →
      Write pj hashFn st vid t input [] y = (some DsErr.locked, st) := by
  have hcx : LockCheck pj st x = none := by
    rw [LockCheck_eq pj st ls tl x hlock, hpj, jIndex_ID, if_pos rfl]
  refine ⟨?_, ?_, ?_⟩
  · rw [Write_pass pj hashFn st vid t input [] ""
      (fun h => h.1 rfl) (fun h => h.1 rfl) hcur]
  · rw [Write_pass pj hashFn st vid t input [] x
      (fun h => by rw [hcx] at h; simpa using h.2) (fun h => h.1 rfl) hcur]
  · intro y hy1 hy2
    have hcy : LockCheck pj st y = some DsErr.locked := by
      rw [LockCheck_eq pj st ls tl y hlock, hpj, jIndex_ID, if_neg]
      intro hcon
      injection hcon with h1
      injection h1 with h2
      exact hy2 h2.symm
    unfold Write
    rw [if_pos ⟨hy1, by rw [hcy]; rfl⟩]

/-- C3: a Write whose non-empty expected hash differs from the digest
of the received bytes returns InvalidHash, removes the version file it
just created, and leaves the blob — hence `Read` and `History` — in
exactly the state it had before the call. -/
theorem write_hash_mismatch_rolls_back
    (pj : String → Option Jobj) (hashFn : String → List Nat) (st : Blob)
    (vid : String) (t : Nat) (input : Reader) (hash : List Nat)
    (lockid : String)
    (hgate : lockid = "" ∨ LockCheck pj st lockid = none)
    (hh1 : hash ≠ []) (hh2 : hashFn input.delivered ≠ hash)
    (hfresh : ∀ f ∈ st.files, f.name ≠ vid) :
    Write pj hashFn st vid t input hash lockid = (some DsErr.invalidHash, st) ∧
    ReadDs (Write pj hashFn st vid t input hash lockid).2 = ReadDs st ∧
    History (Write pj hashFn st vid t input hash lockid).2 = History st := by
  have hg : ¬(lockid ≠ "" ∧ (LockCheck pj st lockid).isSome = true) := by
    rcases hgate with h | h
    · exact fun hcon => hcon.1 h
    · intro hcon
      rw [h] at hcon
      simpa using hcon.2
  have h1 : putFile st.files ⟨vid, input.delivered, t⟩ =
      ⟨vid, input.delivered, t⟩ :: st.files := by
    unfold putFile
    rw [removeFile_eq_self st.files vid hfresh]
  have h2 : removeFile (putFile st.files ⟨vid, input.delivered, t⟩) vid =
      st.files := by
    rw [h1]
    unfold removeFile
    rw [List.filter_cons_of_neg (by simp)]
    exact List.filter_eq_self.mpr
      (fun f hf => by simpa [bne_iff_ne] using hfresh f hf)
  have hmain : Write pj hashFn st vid t input hash lockid =
      (some DsErr.invalidHash, st) := by
    unfold Write
    rw [if_neg hg, if_pos ⟨hh1, hh2⟩]
    simp only [h2]
  exact ⟨hmain, by rw [hmain], by rw [hmain]⟩

/-- C9: a successful Write of bytes `B` followed immediately by Read
yields exactly `B`. -/
theorem write_then_read
    (pj : String → Option Jobj) (hashFn : String → List Nat) (st : Blob)
    (vid : String) (t : Nat) (B : String) (hash : List Nat) (lockid : String)
    (hok : (Write pj hashFn st vid t ⟨B, false⟩ hash lockid).1 = none) :
    ReadDs (Write pj hashFn st vid t ⟨B, false⟩ hash lockid).2 =
      Except.ok B := by
  unfold Write at hok ⊢
  by_cases hg : lockid ≠ "" ∧ (LockCheck pj st lockid).isSome = true
  · rw [if_pos hg] at hok
    simp at hok
  · rw [if_neg hg] at hok ⊢
    by_cases hh : hash ≠ [] ∧ hashFn (Reader.mk B false).delivered ≠ hash
    · rw [if_pos hh] at hok
      simp at hok
    · rw [if_neg hh] at hok ⊢
      rw [set_current_fst_none _ vid hok]
      have h3 : findFile (putFile st.files ⟨vid, B, t⟩) vid =
          some ⟨vid, B, t⟩ := findFile_putFile_self st.files ⟨vid, B, t⟩
      simp [ReadDs, h3]

/-- C4 (code bug): a Write whose body reader fails partway and that
carries no expected hash ignores the read error (`WriteReader`'s error
is only logged): the partial version file is kept and `current` is
swapped to it, and the call reports success. -/
theorem write_reader_failure_keeps_partial :
    Write pj0 h0 blobV "v2" 5 ⟨"pa", true⟩ [] "" =
      (none, ⟨[⟨"v2", "pa", 5⟩, ⟨"v1", "data1", 1⟩], some "v2"⟩) := by
  decide

/-- C5 counterexample: on a blob with one version, Delete then Read
gives NotFound as claimed, but the subsequent History call returns the
empty list — not the prior versions — because the `current` symlink is
gone, although the version file is still on disk. -/
theorem delete_history_empty_cex :
    (Delete blobV).1 = none ∧
    ReadDs (Delete blobV).2 = Except.error DsErr.notFound ∧
    History (Delete blobV).2 = [] ∧
    (Delete blobV).2.files = [⟨"v1", "data1", 1⟩] := by
  exact ⟨rfl, rfl, rfl, rfl⟩

/-- C5 amended: Delete removes `current`, so a following Read returns
NotFound; the subsequent History call returns the empty list (a
missing `current` short-circuits it), while the version files
themselves remain on disk untouched. -/
theorem delete_then_read_notFound
    (st : Blob) (tgt : String) (h : st.current = some tgt) :
    (Delete st).1 = none ∧
    ReadDs (Delete st).2 = Except.error DsErr.notFound ∧
    History (Delete st).2 = [] ∧
    (Delete st).2.files = st.files := by
  unfold Delete
  simp [h, ReadDs, History]

/-- C8 counterexample: a request whose method is none of
GET/POST/DELETE/LOCK/UNLOCK falls through the method switch with a nil
error: the handler performs no datastore call and responds with an
empty body and status 200, not 500. -/
theorem serveAPI_unknown_method_cex :
    serveAPI pj0 h0 blobV ⟨"PUT", "", "", [], ⟨"x", false⟩⟩ "v9" 9 =
      HttpOut.resp 200 "" blobV none ∧
    HttpOut.statusQ
        (serveAPI pj0 h0 blobV ⟨"PUT", "", "", [], ⟨"x", false⟩⟩ "v9" 9) ≠
      some 500 := by
  exact ⟨by decide, by decide⟩

/-- C8 amended: for any request whose method is none of
GET/POST/DELETE/LOCK/UNLOCK, the handler dispatches no datastore call,
leaves the state untouched and responds with an empty body and
status 200 (OK). -/
theorem serveAPI_unknown_method
    (pj : String → Option Jobj) (hashFn : String → List Nat)
    (st : Blob) (r : Request) (vid : String) (t : Nat)
    (h1 : r.method ≠ "GET") (h2 : r.method ≠ "DELETE")
    (h3 : r.method ≠ "POST") (h4 : r.method ≠ "LOCK")
    (h5 : r.method ≠ "UNLOCK") :
    serveAPI pj hashFn st r vid t = HttpOut.resp 200 "" st none := by
  unfold serveAPI
  split
  · rename_i heq; exact absurd heq h1
  · rename_i heq; exact absurd heq h2
  · rename_i heq; exact absurd heq h3
  · rename_i heq; exact absurd heq h4
  · rename_i heq; exact absurd heq h5
  · rfl

/-- C10: on a locked blob, an Unlock whose payload parses to a JSON
object without a string `ID` field — or whose stored lock payload does
not parse to an object with a string `ID` — hits an unchecked type
assertion and panics instead of returning an error. -/
theorem unlock_missing_id_panics
    (pj : String → Option Jobj) (st : Blob) (lockinfo : String)
    (md : Jobj) (lf : VFile)
    (hl : findFile st.files "lock" = some lf)
    (hmd : pj lockinfo = some md) :
    (goString (jIndex (some md) "ID") = none →
      Unlock pj st lockinfo = URes.panicked) ∧
    (∀ a, goString (jIndex (some md) "ID") = some a →
      goString (jIndex (pj lf.data) "ID") = none →
      Unlock pj st lockinfo = URes.panicked) := by
  constructor
  · intro hno
    simp only [Unlock, hmd, hl, hno]
  · intro a ha hno
    simp only [Unlock, hmd, hl, ha, hno]

/-- C7: History returns a list sorted by timestamp descending in which
an entry has `locked = true` exactly when its file name equals the
target of the `current` symlink (so, names being unique, exactly one
entry is locked when the live file exists), the `lock` file is
excluded, and a missing `current` yields the empty list rather than an
error. -/
theorem history_shape (st : Blob) (linkto : String) (hwf : WF st) :
    (st.current = none → History st = []) ∧
    (st.current = some linkto → linkto ≠ "lock" →
      List.Sorted entGE (History st) ∧
      (∀ e ∈ History st, (e.locked = true ↔ e.name = linkto) ∧
        e.name ≠ "lock") ∧
      ((findFile st.files linkto).isSome = true →
        (History st).countP (fun e => e.locked) = 1)) := by
  constructor
  · intro h
    simp [History, h]
  · intro h hlk
    refine ⟨?_, ?_, ?_⟩
    · simp only [History, h]
      exact List.sorted_insertionSort entGE _
    · intro e he
      exact History_locked_iff h he
    · intro hlive
      obtain ⟨f0, hf0⟩ := Option.isSome_iff_exists.mp hlive
      have hf0mem : f0 ∈ st.files := List.mem_of_find?_eq_some hf0
      have hf0name : f0.name = linkto := by
        have := List.find?_some hf0
        simpa [beq_iff_eq] using this
      simp only [History, h]
      rw [(List.perm_insertionSort entGE _).countP_eq, List.countP_map,
        List.countP_filter,
        (List.perm_insertionSort fileLE st.files).countP_eq]
      have hcongr : ∀ f ∈ st.files,
          (((fun e => e.locked) ∘ entryOf linkto) f && (f.name != "lock")) ↔
          (f.name == linkto) = true := by
        intro f _
        simp only [Function.comp, entryOf, Bool.and_eq_true, bne_iff_ne,
          beq_iff_eq]
        constructor
        · rintro ⟨h1, -⟩
          exact h1.symm
        · intro h1
          exact ⟨h1.symm, by rw [h1]; exact hlk⟩
      rw [List.countP_congr hcongr]
      have : List.countP (fun f => f.name == linkto) st.files =
          List.count linkto (st.files.map VFile.name) := by
        rw [List.count_eq_countP, List.countP_map]
        rfl
      rw [this]
      exact List.count_eq_one_of_mem hwf
        (List.mem_map.mpr ⟨f0, hf0mem, hf0name⟩)

/-- C6: after a non-dry Prune keeping `keep` entries, the history has
at most `max (keep+1) 1` entries, and the live version (the file
targeted by `current`) is never removed, even for `keep = 0`. -/
theorem prune_bounds (st : Blob) (keep : Nat) (hwf : WF st) :
    (History (Prune st keep false)).length ≤ max (keep + 1) 1 ∧
    (∀ linkto f, st.current = some linkto →
      findFile st.files linkto = some f →
      findFile (Prune st keep false).files linkto = some f) := by
  have hmax : max (keep + 1) 1 = keep + 1 :=
    Nat.max_eq_left (Nat.le_add_left 1 keep)
  unfold Prune
  by_cases hle : (History st).length ≤ keep
  · rw [if_pos hle]
    refine ⟨?_, ?_⟩
    · rw [hmax]
      exact Nat.le_succ_of_le hle
    · intro linkto f _ hff
      exact hff
  · rw [if_neg hle, pruneLoop_false]
    constructor
    · cases hcur : st.current with
      | none =>
          simp [History]
      | some linkto =>
          rw [length_History _ linkto rfl, List.filter_filter, hmax]
          have hnodup : ((st.files.filter (fun a =>
              (a.name != "lock") &&
              (((History st).drop keep).all
                (fun e => e.locked || e.name != a.name)))).map VFile.name).Nodup :=
            List.Nodup.sublist
              ((List.filter_sublist st.files).map VFile.name) hwf
          have key : ∀ x ∈ (st.files.filter (fun a =>
              (a.name != "lock") &&
              (((History st).drop keep).all
                (fun e => e.locked || e.name != a.name)))).map VFile.name,
              x ∈ linkto :: ((History st).take keep).map FileEntry.name := by
            intro x hx
            obtain ⟨f, hfmem, rfl⟩ := List.mem_map.mp hx
            obtain ⟨hfin, hP2⟩ := List.mem_filter.mp hfmem
            rw [Bool.and_eq_true] at hP2
            obtain ⟨hflock, hPf⟩ := hP2
            by_cases hx2 : f.name = linkto
            · rw [hx2]
              exact List.mem_cons_self _ _
            · refine List.mem_cons.mpr (Or.inr ?_)
              have hent : entryOf linkto f ∈ History st :=
                mem_History hcur hfin (by simpa [bne_iff_ne] using hflock)
              rw [← List.take_append_drop keep (History st)] at hent
              rcases List.mem_append.mp hent with hta | hdr
              · exact List.mem_map.mpr ⟨entryOf linkto f, hta, rfl⟩
              · exfalso
                have hall := List.all_eq_true.mp hPf (entryOf linkto f) hdr
                simp only [entryOf, Bool.or_eq_true, beq_iff_eq,
                  bne_iff_ne] at hall
                rcases hall with h1 | h2
                · exact hx2 h1.symm
                · exact h2 rfl
          have hlen := (List.subperm_of_subset hnodup key).length_le
          rw [List.length_map] at hlen
          have h2 : (linkto ::
              ((History st).take keep).map FileEntry.name).length ≤
              keep + 1 := by
            rw [List.length_cons, List.length_map, List.length_take]
            exact Nat.add_le_add_right (Nat.min_le_left _ _) 1
          exact le_trans hlen h2
    · intro linkto f hcur hfind
      unfold findFile at hfind ⊢
      have himp : ∀ x ∈ st.files, (x.name == linkto) = true →
          (((History st).drop keep).all
            (fun e => e.locked || e.name != x.name)) = true := by
        intro x hxmem hxname
        rw [beq_iff_eq] at hxname
        rw [List.all_eq_true]
        intro e he
        have hemem : e ∈ History st := List.drop_subset keep (History st) he
        have hli := History_locked_iff hcur hemem
        by_cases hel : e.locked = true
        · simp [hel]
        · have hne : e.name ≠ linkto := fun hh => hel (hli.1.mpr hh)
          rw [hxname]
          simp [hel, bne_iff_ne, hne]
      rw [find?_filter_of_imp st.files _ _ himp]
      exact hfind

theorem write_respects_lock_id_witness :
    Write pj0 h0 blobLockedA "v2" 5 ⟨"zz", false⟩ [] "b" =
      (some DsErr.locked, blobLockedA) ∧
    Write pj0 h0 blobLockedA "v2" 5 ⟨"zz", false⟩ [] "a" =
      (none, ⟨putFile blobLockedA.files ⟨"v2", "zz", 5⟩, some "v2"⟩) :=
  write_respects_lock_id pj0 h0 blobLockedA "a" "b" "La" 0 ⟨"zz", false⟩ "v2" 5
    (by decide) (by decide) (by decide) (by decide) (by decide)

theorem write_lock_id_semantics_witness :
    (Write pj0 h0 blobLockedX "v2" 5 ⟨"zz", false⟩ [] "").1 = none ∧
    (Write pj0 h0 blobLockedX "v2" 5 ⟨"zz", false⟩ [] "X").1 = none ∧
    Write pj0 h0 blobLockedX "v2" 5 ⟨"zz", false⟩ [] "Q" =
      (some DsErr.locked, blobLockedX) := by
  have h := write_lock_id_semantics pj0 h0 blobLockedX "X" "Lx" 0
    ⟨"zz", false⟩ "v2" 5 (by decide) (by decide) (by decide)
  exact ⟨h.1, h.2.1, h.2.2 "Q" (by decide) (by decide)⟩

theorem write_hash_mismatch_rolls_back_witness :
    Write pj0 h0 blobV "v2" 5 ⟨"zz", false⟩ [1, 2] "" =
      (some DsErr.invalidHash, blobV) ∧
    ReadDs (Write pj0 h0 blobV "v2" 5 ⟨"zz", false⟩ [1, 2] "").2 =
      ReadDs blobV ∧
    History (Write pj0 h0 blobV "v2" 5 ⟨"zz", false⟩ [1, 2] "").2 =
      History blobV :=
  write_hash_mismatch_rolls_back pj0 h0 blobV "v2" 5 ⟨"zz", false⟩ [1, 2] ""
    (Or.inl rfl) (by decide) (by decide) (by decide)

theorem write_then_read_witness :
    ReadDs (Write pj0 h0 blobV "v2" 5 ⟨"BB", false⟩ [] "").2 =
      Except.ok "BB" :=
  write_then_read pj0 h0 blobV "v2" 5 "BB" [] "" (by decide)

theorem delete_then_read_notFound_witness :
    (Delete blobV).1 = none ∧
    ReadDs (Delete blobV).2 = Except.error DsErr.notFound ∧
    History (Delete blobV).2 = [] ∧
    (Delete blobV).2.files = blobV.files :=
  delete_then_read_notFound blobV "v1" rfl

theorem serveAPI_unknown_method_witness :
    serveAPI pj0 h0 blobV ⟨"PATCH", "", "", [], ⟨"x", false⟩⟩ "v9" 9 =
      HttpOut.resp 200 "" blobV none :=
  serveAPI_unknown_method pj0 h0 blobV ⟨"PATCH", "", "", [], ⟨"x", false⟩⟩
    "v9" 9 (by decide) (by decide) (by decide) (by decide) (by decide)

theorem unlock_missing_id_panics_witness :
    Unlock pj0 blobLockedA "Lnoid" = URes.panicked ∧
    Unlock pj0 blobLockedNoid "La" = URes.panicked := by
  constructor
  · exact (unlock_missing_id_panics pj0 blobLockedA "Lnoid"
      [("who", GoVal.vstr "ops")] ⟨"lock", "La", 0⟩
      (by decide) (by decide)).1 (by decide)
  · exact (unlock_missing_id_panics pj0 blobLockedNoid "La"
      [("ID", GoVal.vstr "a")] ⟨"lock", "Lnoid", 0⟩
      (by decide) (by decide)).2 "a" (by decide) (by decide)

theorem prune_bounds_witness :
    (History (Prune blobMulti 0 false)).length ≤ max (0 + 1) 1 ∧
    findFile (Prune blobMulti 0 false).files "v3" = some ⟨"v3", "d3", 3⟩ := by
  have h := prune_bounds blobMulti 0 (by decide)
  exact ⟨h.1, h.2 "v3" ⟨"v3", "d3", 3⟩ rfl (by decide)⟩

theorem history_shape_witness :
    List.Sorted entGE (History blobMulti) ∧
    (History blobMulti).countP (fun e => e.locked) = 1 ∧
    History ⟨blobMulti.files, none⟩ = [] := by
  have h := history_shape blobMulti "v3" (by decide)
  have h2 := history_shape ⟨blobMulti.files, none⟩ "v3" (by decide)
  exact ⟨(h.2 rfl (by decide)).1, (h.2 rfl (by decide)).2.2 (by decide),
    h2.1 rfl⟩
